import Mathlib

/-!
Verification of the HL7-to-JSON batch conversion pipeline (`HL7Converter` in
`main.py`): fenced-block extraction from a markdown document, per-message
conversion through an external parser capability, and aggregation of
per-message outcomes with success/failure counters.

File I/O (reading the input document, writing the report) is out of scope;
the embedding takes the document text as a `String` and returns the report
list together with the two counters.
-/

/-- A Python runtime value, as relevant to this pipeline: the parser returns
some value (typically a dict) and the pipeline branches on its truthiness. -/
inductive PyValue where
  | pyNone
  | pyBool (b : Bool)
  | pyInt (n : Int)
  | pyStr (s : String)
  | pyList (xs : List PyValue)
  | pyDict (entries : List (String × PyValue))

/-- Python truthiness (`if json_data:`): `None`, `False`, `0`, `""`, `[]`,
`{}` are falsy; everything else is truthy. -/
def PyValue.truthy : PyValue → Bool
  | .pyNone => false
  | .pyBool b => b
  | .pyInt n => n != 0
  | .pyStr s => !s.isEmpty
  | .pyList xs => !xs.isEmpty
  | .pyDict es => !es.isEmpty

/-- A Python exception value: its `str(e)` text, and whether it is an
instance of `Exception` (as opposed to a `BaseException`-only signal such as
`KeyboardInterrupt` or `SystemExit`, which `except Exception` does not
catch). -/
structure PyExc where
  isException : Bool
  msg : String

/-- The external parser capability: `Hl7Json(hl7_message).hl7_json`.
It either returns a structured value or raises an exception. -/
abbrev Hl7Parser := String → Except PyExc PyValue

/-- `HL7Converter.convert_hl7_to_json` (main.py lines 53-70): calls the
parser inside `try`; `except Exception as e` returns `(None, str(e))`; an
exception that is not an `Exception` instance is not caught and
propagates (modelled as `Except.error`). On parser success it returns
`(json_data, None)`. -/
def convert_hl7_to_json (parser : Hl7Parser) (hl7_message : String) :
    Except PyExc (PyValue × Option String) :=
  match parser hl7_message with
  | .ok json_data => .ok (json_data, Option.none)
  | .error e => if e.isException then .ok (.pyNone, some e.msg) else .error e

/-- One entry of the results list built by `process_file`: either the
success dict `{"message_index": i, "conversion_status": "success",
"data": ...}` or the failure dict `{"message_index": i,
"conversion_status": "failed", "error": ..., "original_message": ...}`. -/
inductive ConversionResult where
  | success (message_index : Nat) (data : PyValue)
  | failed (message_index : Nat) (error : Option String) (original_message : String)

/-- The `message_index` field of a result entry. -/
def ConversionResult.index : ConversionResult → Nat
  | .success i _ => i
  | .failed i _ _ => i

/-- Whether a result entry has `conversion_status == "success"`. -/
def ConversionResult.isSuccess : ConversionResult → Bool
  | .success _ _ => true
  | .failed _ _ _ => false

/-- Default entry used with `List.getD` (never selected at in-range
indices). -/
def defaultResult : ConversionResult := .failed 0 Option.none ""

/-- The backtick character. -/
def backtick : Char := Char.ofNat 96

/-- The literal regex prefix: three backticks followed by a newline. -/
def fenceOpen : List Char := [backtick, backtick, backtick, '\n']

/-- The literal regex suffix: a newline followed by three backticks. -/
def fenceClose : List Char := ['\n', backtick, backtick, backtick]

/-- Index of the first occurrence of `pat` as a contiguous sublist, if any:
the substring-search primitive underlying `re.findall`'s left-to-right
scan. -/
def findSub (pat : List Char) : List Char → Option Nat
  | [] => cond (pat.isPrefixOf ([] : List Char)) (some 0) Option.none
  | c :: rest =>
    cond (pat.isPrefixOf (c :: rest)) (some 0) ((findSub pat rest).map (· + 1))

/-- Fuelled worker for `re.findall(r'(three backticks)\n(.*?)\n(three
backticks)', content, re.DOTALL)`: find the next opening marker, then the
first closing marker after it (the lazy `(.*?)` takes the shortest capture),
emit the capture, and continue after the closing marker. Each match consumes
at least 8 characters, so `content.length` is always enough fuel. -/
def extractGo : Nat → List Char → List (List Char)
  | 0, _ => []
  | fuel + 1, s =>
    match findSub fenceOpen s with
    | Option.none => []
    | some p =>
      match findSub fenceClose (s.drop (p + 4)) with
      | Option.none => []
      | some q =>
        (s.drop (p + 4)).take q :: extractGo fuel ((s.drop (p + 4)).drop (q + 4))

/-- All captures of the fenced-block pattern, in left-to-right order. -/
def extractMessages (s : List Char) : List (List Char) :=
  extractGo s.length s

/-- `HL7Converter.extract_hl7_messages_from_markdown` (main.py lines 33-51),
with the file read replaced by its resulting text `content`. -/
def extract_hl7_messages_from_markdown (content : String) : List String :=
  (extractMessages content.data).map fun cs => String.mk cs

/-- The per-message loop of `HL7Converter.process_file` (main.py lines
92-113): for the message at 0-based position `i`, convert it; a propagated
(non-`Exception`) error aborts the whole loop with no report; otherwise
append a success entry and bump `successful` when the returned value is
truthy, else append a failure entry and bump `failed`. -/
def processMessages (parser : Hl7Parser) (i : Nat) :
    List String → Except PyExc (Nat × Nat × List ConversionResult)
  | [] => .ok (0, 0, [])
  | message :: rest =>
    match convert_hl7_to_json parser message with
    | .error e => .error e
    | .ok (json_data, error) =>
      match processMessages parser (i + 1) rest with
      | .error e => .error e
      | .ok (successful, failed, results) =>
        if json_data.truthy then
          .ok (successful + 1, failed,
            ConversionResult.success (i + 1) json_data :: results)
        else
          .ok (successful, failed + 1,
            ConversionResult.failed (i + 1) error message :: results)

/-- `HL7Converter.process_file` (main.py lines 72-119), with file I/O out of
scope: extract the messages, run the loop from index 0, and return
`(successful, failed)` together with the results list that the source
serializes to the output file. -/
def process_file (parser : Hl7Parser) (content : String) :
    Except PyExc (Nat × Nat × List ConversionResult) :=
  processMessages parser 0 (extract_hl7_messages_from_markdown content)

/-- Whether a message, run through `convert_hl7_to_json`, lands in the
success branch of `process_file` (truthy returned value). -/
def msgSucceeds (parser : Hl7Parser) (m : String) : Bool :=
  match convert_hl7_to_json parser m with
  | .ok (v, _) => v.truthy
  | .error _ => false

/-- Whether the document contains at least one fence marker pair: an opening
marker occurrence and a closing marker occurrence starting at least 4
characters later. -/
def hasFencePair (s : List Char) : Bool :=
  (List.range s.length).any fun p =>
    fenceOpen.isPrefixOf (s.drop p) &&
    (List.range s.length).any fun q =>
      decide (p + 4 ≤ q) && fenceClose.isPrefixOf (s.drop q)

/-- Deterministic test parser used for concrete evaluations: `"BAD"` raises
an `Exception`, `"KBINT"` raises a `BaseException`-only interrupt, `"OOM"`
raises a `MemoryError` (an `Exception` whose cause is not the message
content), `"EMPTY"` parses to the falsy dict `{}`, and anything else parses
to a non-empty dict. -/
def testParser : Hl7Parser := fun m =>
  if m = "BAD" then Except.error ⟨true, "Invalid HL7 message"⟩
  else if m = "KBINT" then Except.error ⟨false, "KeyboardInterrupt"⟩
  else if m = "OOM" then Except.error ⟨true, "MemoryError"⟩
  else if m = "EMPTY" then Except.ok (PyValue.pyDict [])
  else Except.ok (PyValue.pyDict [("raw", PyValue.pyStr m)])


/-- Whether every error the parser raises on `m` is an `Exception`
instance (so `except Exception` can catch it). -/
def raisesOnlyExceptions (parser : Hl7Parser) (m : String) : Bool :=
  match parser m with
  | Except.error e => e.isException
  | Except.ok _ => true

/-- A document with three fenced candidates: a parseable message, a
malformed one, and one whose parse returns the empty dict. -/
def doc3 : String := "```\nMSH|1\n```\n```\nBAD\n```\n```\nEMPTY\n```"

/-- A document whose single fenced candidate parses, without any failure
signal, to the falsy structured value `{}`. -/
def docEmptyVal : String := "```\nEMPTY\n```"

/-- A document whose middle candidate makes the parser raise a
`MemoryError` (resource exhaustion: an `Exception` whose cause is not the
message content). -/
def docOOM : String := "```\nMSH|1\n```\n```\nOOM\n```\n```\nMSH|2\n```"

/-- A document whose single candidate makes the parser raise a
`BaseException`-only interrupt. -/
def docKB : String := "```\nKBINT\n```"

/-- If `pat` starts the list, `findSub` reports position 0. -/
theorem findSub_of_isPrefixOf {pat l : List Char} (h : pat.isPrefixOf l = true) :
    findSub pat l = some 0 := by
  cases l with
  | nil => rw [findSub, h, cond_true]
  | cons c rest => rw [findSub, h, cond_true]

/-- `findSub` soundness: the reported position carries an occurrence. -/
theorem findSub_isPrefixOf {pat l : List Char} {p : Nat} (h : findSub pat l = some p) :
    pat.isPrefixOf (l.drop p) = true := by
  induction l generalizing p with
  | nil =>
    cases hc : pat.isPrefixOf ([] : List Char) with
    | false => rw [findSub, hc, cond_false] at h; cases h
    | true =>
      rw [findSub, hc, cond_true] at h
      cases h
      exact hc
  | cons c rest ih =>
    cases hc : pat.isPrefixOf (c :: rest) with
    | true =>
      rw [findSub, hc, cond_true] at h
      cases h
      exact hc
    | false =>
      rw [findSub, hc, cond_false] at h
      cases hf : findSub pat rest with
      | none => rw [hf] at h; cases h
      | some q =>
        rw [hf] at h
        simp only [Option.map_some'] at h
        cases h
        rw [List.drop_succ_cons]
        exact ih hf

/-- `findSub` minimality: no occurrence strictly before the reported one. -/
theorem findSub_min {pat l : List Char} {p : Nat} (h : findSub pat l = some p) :
    ∀ q, q < p → pat.isPrefixOf (l.drop q) = false := by
  induction l generalizing p with
  | nil =>
    cases hc : pat.isPrefixOf ([] : List Char) with
    | false => rw [findSub, hc, cond_false] at h; cases h
    | true => rw [findSub, hc, cond_true] at h; cases h; omega
  | cons c rest ih =>
    cases hc : pat.isPrefixOf (c :: rest) with
    | true => rw [findSub, hc, cond_true] at h; cases h; omega
    | false =>
      rw [findSub, hc, cond_false] at h
      cases hf : findSub pat rest with
      | none => rw [hf] at h; cases h
      | some r =>
        rw [hf] at h
        simp only [Option.map_some'] at h
        cases h
        intro q hq
        cases q with
        | zero => rw [List.drop_zero]; exact hc
        | succ q =>
          rw [List.drop_succ_cons]
          exact ih hf q (by omega)

/-- An occurrence of a nonempty pattern fits inside the list. -/
theorem findSub_bound {pat l : List Char} {p : Nat} (hpat : pat ≠ [])
    (h : findSub pat l = some p) : p + pat.length ≤ l.length := by
  have hpre := findSub_isPrefixOf h
  have hlen : pat.length ≤ (l.drop p).length :=
    (List.isPrefixOf_iff_prefix.mp hpre).length_le
  have h1 : 1 ≤ pat.length := by
    cases pat with
    | nil => exact absurd rfl hpat
    | cons a t => simp
  rw [List.length_drop] at hlen
  omega

/-- An occurrence splits the list around the pattern. -/
theorem eq_of_isPrefixOf_drop {pat l : List Char} {p : Nat}
    (h : pat.isPrefixOf (l.drop p) = true) :
    l = l.take p ++ pat ++ l.drop (p + pat.length) := by
  obtain ⟨t, ht⟩ := List.isPrefixOf_iff_prefix.mp h
  have hd : l.drop (p + pat.length) = t := by
    rw [← List.drop_drop, ← ht, List.drop_left' rfl]
  calc l = l.take p ++ l.drop p := (List.take_append_drop p l).symm
    _ = l.take p ++ (pat ++ t) := by rw [← ht]
    _ = l.take p ++ pat ++ l.drop (p + pat.length) := by rw [hd, List.append_assoc]

/-- `extractGo` on the empty document is empty, for any fuel. -/
theorem extractGo_nil (fuel : Nat) : extractGo fuel [] = [] := by
  cases fuel with
  | zero => rfl
  | succ f => rfl

/-- `extractGo` ignores the fuel as soon as it covers the document length. -/
theorem extractGo_congr : ∀ (fuel₁ fuel₂ : Nat) (s : List Char),
    s.length ≤ fuel₁ → s.length ≤ fuel₂ → extractGo fuel₁ s = extractGo fuel₂ s := by
  intro fuel₁
  induction fuel₁ with
  | zero =>
    intro fuel₂ s h₁ _
    have : s = [] := List.eq_nil_of_length_eq_zero (by omega)
    subst this
    rw [extractGo_nil, extractGo_nil]
  | succ f ih =>
    intro fuel₂ s h₁ h₂
    cases fuel₂ with
    | zero =>
      have : s = [] := List.eq_nil_of_length_eq_zero (by omega)
      subst this
      rw [extractGo_nil, extractGo_nil]
    | succ g =>
      cases hp : findSub fenceOpen s with
      | none => simp only [extractGo, hp]
      | some p =>
        cases hq : findSub fenceClose (s.drop (p + 4)) with
        | none => simp only [extractGo, hp, hq]
        | some q =>
          have hb₁ : p + 4 ≤ s.length := by
            have := findSub_bound (by simp [fenceOpen]) hp
            simpa [fenceOpen] using this
          have hb₂ : q + 4 ≤ s.length - (p + 4) := by
            have := findSub_bound (by simp [fenceClose]) hq
            simpa [fenceClose, List.length_drop] using this
          simp only [extractGo, hp, hq]
          rw [ih g ((s.drop (p + 4)).drop (q + 4))
            (by simp only [List.length_drop]; omega)
            (by simp only [List.length_drop]; omega)]

/-- The one-step unfolding of `extractMessages`, fuel eliminated. -/
theorem extractMessages_eq (s : List Char) :
    extractMessages s =
      match findSub fenceOpen s with
      | Option.none => []
      | some p =>
        match findSub fenceClose (s.drop (p + 4)) with
        | Option.none => []
        | some q =>
          (s.drop (p + 4)).take q ::
            extractMessages ((s.drop (p + 4)).drop (q + 4)) := by
  cases hp : findSub fenceOpen s with
  | none =>
    cases s with
    | nil => rfl
    | cons c rest =>
      show extractGo (c :: rest).length (c :: rest) = _
      rw [List.length_cons]
      simp only [extractGo, hp]
  | some p =>
    have hb₁ : p + 4 ≤ s.length := by
      have := findSub_bound (by simp [fenceOpen]) hp
      simpa [fenceOpen] using this
    obtain ⟨n, hn⟩ : ∃ n, s.length = n + 1 := ⟨s.length - 1, by omega⟩
    show extractGo s.length s = _
    rw [hn]
    cases hq : findSub fenceClose (s.drop (p + 4)) with
    | none => simp only [extractGo, hp, hq]
    | some q =>
      have hb₂ : q + 4 ≤ s.length - (p + 4) := by
        have := findSub_bound (by simp [fenceClose]) hq
        simpa [fenceClose, List.length_drop] using this
      simp only [extractGo, hp, hq]
      rw [extractGo_congr n ((s.drop (p + 4)).drop (q + 4)).length
        ((s.drop (p + 4)).drop (q + 4))
        (by simp only [List.length_drop]; omega) (le_refl _)]
      rfl

/-- In `A ++ (fenceClose ++ rest)` with `A` backtick-free, the first closing
marker occurrence starts exactly at `A.length`: the lazy capture of the
regex stops at the first closing marker. -/
theorem findSub_fenceClose_at (A rest : List Char) (hA : ∀ c ∈ A, c ≠ backtick) :
    findSub fenceClose (A ++ (fenceClose ++ rest)) = some A.length := by
  induction A with
  | nil =>
    rw [List.nil_append]
    exact findSub_of_isPrefixOf
      (List.isPrefixOf_iff_prefix.mpr (List.prefix_append fenceClose rest))
  | cons c A ih =>
    have hfalse : fenceClose.isPrefixOf (c :: (A ++ (fenceClose ++ rest))) = false := by
      cases hb : fenceClose.isPrefixOf (c :: (A ++ (fenceClose ++ rest))) with
      | false => rfl
      | true =>
        exfalso
        have hpre := List.isPrefixOf_iff_prefix.mp hb
        simp only [fenceClose] at hpre
        obtain ⟨h1, hpre⟩ := List.cons_prefix_cons.mp hpre
        cases A with
        | nil =>
          rw [List.nil_append] at hpre
          obtain ⟨h2, _⟩ := List.cons_prefix_cons.mp hpre
          exact absurd h2 (by decide)
        | cons a A =>
          rw [List.cons_append] at hpre
          obtain ⟨h2, _⟩ := List.cons_prefix_cons.mp hpre
          exact hA a (by simp) h2.symm
    rw [List.cons_append, findSub, hfalse, cond_false,
      ih fun x hx => hA x (List.mem_cons_of_mem c hx)]
    rfl

/-- A backtick-free block at the front of the document is captured exactly,
and extraction continues right after its closing marker. -/
theorem extractMessages_block (A rest : List Char) (hA : ∀ c ∈ A, c ≠ backtick) :
    extractMessages (fenceOpen ++ (A ++ (fenceClose ++ rest))) =
      A :: extractMessages rest := by
  rw [extractMessages_eq]
  have hopen : findSub fenceOpen (fenceOpen ++ (A ++ (fenceClose ++ rest))) = some 0 :=
    findSub_of_isPrefixOf
      (List.isPrefixOf_iff_prefix.mpr (List.prefix_append fenceOpen _))
  simp only [hopen]
  have hdrop : (fenceOpen ++ (A ++ (fenceClose ++ rest))).drop (0 + 4) =
      A ++ (fenceClose ++ rest) := by
    rw [Nat.zero_add]
    exact List.drop_left' rfl
  rw [hdrop]
  simp only [findSub_fenceClose_at A rest hA]
  have htake : (A ++ (fenceClose ++ rest)).take A.length = A := List.take_left A _
  have hdrop2 : (A ++ (fenceClose ++ rest)).drop (A.length + 4) = rest := by
    have : A ++ (fenceClose ++ rest) = (A ++ fenceClose) ++ rest := by
      rw [List.append_assoc]
    rw [this]
    exact List.drop_left' (by simp [fenceClose])
  rw [htake, hdrop2]

/-- A single backtick-free block with nothing after it. -/
theorem extractMessages_block_nil (A : List Char) (hA : ∀ c ∈ A, c ≠ backtick) :
    extractMessages (fenceOpen ++ (A ++ fenceClose)) = [A] := by
  have h := extractMessages_block A [] hA
  rw [List.append_nil] at h
  rw [h]
  rfl

/-- Recombining two marker-split decompositions. -/
theorem split_two {s pre mid c post : List Char}
    (h1 : s = pre ++ fenceOpen ++ mid) (h2 : mid = c ++ fenceClose ++ post) :
    s = pre ++ fenceOpen ++ c ++ fenceClose ++ post := by
  rw [h1, h2]
  simp [List.append_assoc]

/-- Every extracted candidate sits in the document directly between an
opening marker (three backticks then a newline) and a closing marker (a
newline then three backticks); the candidate text itself excludes both
marker lines and both bounding newlines. -/
theorem extractGo_sound : ∀ (fuel : Nat) (s : List Char), s.length ≤ fuel →
    ∀ c ∈ extractGo fuel s,
      ∃ pre post, s = pre ++ fenceOpen ++ c ++ fenceClose ++ post := by
  intro fuel
  induction fuel with
  | zero =>
    intro s h c hc
    simp only [extractGo] at hc
    exact absurd hc (List.not_mem_nil c)
  | succ f ih =>
    intro s h c hc
    cases hp : findSub fenceOpen s with
    | none =>
      simp only [extractGo, hp] at hc
      exact absurd hc (List.not_mem_nil c)
    | some p =>
      cases hq : findSub fenceClose (s.drop (p + 4)) with
      | none =>
        simp only [extractGo, hp, hq] at hc
        exact absurd hc (List.not_mem_nil c)
      | some q =>
        have hb₁ : p + 4 ≤ s.length := by
          have := findSub_bound (by simp [fenceOpen]) hp
          simpa [fenceOpen] using this
        have hb₂ : q + 4 ≤ s.length - (p + 4) := by
          have := findSub_bound (by simp [fenceClose]) hq
          simpa [fenceClose, List.length_drop] using this
        have e1 : s = s.take p ++ fenceOpen ++ s.drop (p + 4) :=
          eq_of_isPrefixOf_drop (findSub_isPrefixOf hp)
        have e2 : s.drop (p + 4) =
            (s.drop (p + 4)).take q ++ fenceClose ++ (s.drop (p + 4)).drop (q + 4) :=
          eq_of_isPrefixOf_drop (findSub_isPrefixOf hq)
        simp only [extractGo, hp, hq] at hc
        rw [List.mem_cons] at hc
        cases hc with
        | inl hcap =>
          subst hcap
          exact ⟨s.take p, (s.drop (p + 4)).drop (q + 4), split_two e1 e2⟩
        | inr hrec =>
          obtain ⟨pre₂, post₂, hR⟩ :=
            ih ((s.drop (p + 4)).drop (q + 4))
              (by simp only [List.length_drop]; omega) c hrec
          refine ⟨s.take p ++ fenceOpen ++ (s.drop (p + 4)).take q ++ fenceClose ++ pre₂,
            post₂, ?_⟩
          have hs := split_two e1 e2
          conv_lhs => rw [hs, hR]
          simp [List.append_assoc]

/-- If the document has no fence marker pair, extraction finds nothing. -/
theorem extractMessages_nil_of_no_pair {s : List Char}
    (h : hasFencePair s = false) : extractMessages s = [] := by
  rw [extractMessages_eq]
  cases hp : findSub fenceOpen s with
  | none => rfl
  | some p =>
    cases hq : findSub fenceClose (s.drop (p + 4)) with
    | none => simp only [hq]
    | some q =>
      exfalso
      have hb₁ : p + 4 ≤ s.length := by
        have := findSub_bound (by simp [fenceOpen]) hp
        simpa [fenceOpen] using this
      have hb₂ : q + 4 ≤ s.length - (p + 4) := by
        have := findSub_bound (by simp [fenceClose]) hq
        simpa [fenceClose, List.length_drop] using this
      have ho : fenceOpen.isPrefixOf (s.drop p) = true := findSub_isPrefixOf hp
      have hcl : fenceClose.isPrefixOf (s.drop (p + 4 + q)) = true := by
        have h2 := findSub_isPrefixOf hq
        rw [List.drop_drop] at h2
        exact h2
      have htrue : hasFencePair s = true := by
        simp only [hasFencePair, List.any_eq_true, List.mem_range, Bool.and_eq_true,
          decide_eq_true_eq]
        exact ⟨p, by omega, ho, p + 4 + q, by omega, by omega, hcl⟩
      rw [h] at htrue
      cases htrue

/-- Splitting a list by a Boolean predicate accounts for every element. -/
theorem length_filter_add_length_filter_not {α : Type} (p : α → Bool) :
    ∀ l : List α, (l.filter p).length + (l.filter fun x => !p x).length = l.length := by
  intro l
  induction l with
  | nil => rfl
  | cons x xs ih =>
    cases hx : p x with
    | true => simp [List.filter_cons, hx, ← ih]; omega
    | false => simp [List.filter_cons, hx, ← ih]; omega

/-- The loop produces one entry per message, and the `message_index` fields
run consecutively from `i + 1` in input order. -/
theorem processMessages_length_index (parser : Hl7Parser) (msgs : List String) :
    ∀ (i s f : Nat) (rs : List ConversionResult),
      processMessages parser i msgs = Except.ok (s, f, rs) →
      rs.length = msgs.length ∧
      rs.map ConversionResult.index = List.range' (i + 1) msgs.length := by
  induction msgs with
  | nil =>
    intro i s f rs h
    simp only [processMessages] at h
    cases h
    exact ⟨rfl, rfl⟩
  | cons m rest ih =>
    intro i s f rs h
    simp only [processMessages] at h
    cases hc : convert_hl7_to_json parser m with
    | error e =>
      simp only [hc] at h
      exact (Except.noConfusion h)
    | ok pr =>
      obtain ⟨v, err⟩ := pr
      simp only [hc] at h
      cases hr : processMessages parser (i + 1) rest with
      | error e =>
        simp only [hr] at h
        exact (Except.noConfusion h)
      | ok tri =>
        obtain ⟨s', f', rs'⟩ := tri
        simp only [hr] at h
        obtain ⟨h1, h2⟩ := ih (i + 1) s' f' rs' hr
        split at h
        all_goals
          simp only [Except.ok.injEq, Prod.mk.injEq] at h
          obtain ⟨rfl, rfl, rfl⟩ := h
          refine ⟨by simp [h1], ?_⟩
          simp only [List.map_cons, List.length_cons, List.range'_succ]
          simp [ConversionResult.index, h2]

/-- The two counters equal both the number of success/failure entries in the
produced list and the number of input messages classified by `msgSucceeds`. -/
theorem processMessages_counts (parser : Hl7Parser) (msgs : List String) :
    ∀ (i s f : Nat) (rs : List ConversionResult),
      processMessages parser i msgs = Except.ok (s, f, rs) →
      s = (rs.filter ConversionResult.isSuccess).length ∧
      f = (rs.filter fun r => !r.isSuccess).length ∧
      s = (msgs.filter (msgSucceeds parser)).length ∧
      f = (msgs.filter fun m => !msgSucceeds parser m).length := by
  induction msgs with
  | nil =>
    intro i s f rs h
    simp only [processMessages] at h
    cases h
    exact ⟨rfl, rfl, rfl, rfl⟩
  | cons m rest ih =>
    intro i s f rs h
    simp only [processMessages] at h
    cases hc : convert_hl7_to_json parser m with
    | error e =>
      simp only [hc] at h
      exact (Except.noConfusion h)
    | ok pr =>
      obtain ⟨v, err⟩ := pr
      simp only [hc] at h
      cases hr : processMessages parser (i + 1) rest with
      | error e =>
        simp only [hr] at h
        exact (Except.noConfusion h)
      | ok tri =>
        obtain ⟨s', f', rs'⟩ := tri
        simp only [hr] at h
        obtain ⟨ih1, ih2, ih3, ih4⟩ := ih (i + 1) s' f' rs' hr
        have hm : msgSucceeds parser m = v.truthy := by
          simp [msgSucceeds, hc]
        split at h
        · rename_i hv
          simp only [Except.ok.injEq, Prod.mk.injEq] at h
          obtain ⟨rfl, rfl, rfl⟩ := h
          refine ⟨?_, ?_, ?_, ?_⟩
          · simp [List.filter_cons, ConversionResult.isSuccess, ih1]
          · simp [List.filter_cons, ConversionResult.isSuccess, ih2]
          · simp [List.filter_cons, hm, hv, ih3]
          · simp [List.filter_cons, hm, hv, ih4]
        · rename_i hv
          rw [Bool.not_eq_true] at hv
          simp only [Except.ok.injEq, Prod.mk.injEq] at h
          obtain ⟨rfl, rfl, rfl⟩ := h
          refine ⟨?_, ?_, ?_, ?_⟩
          · simp [List.filter_cons, ConversionResult.isSuccess, ih1]
          · simp [List.filter_cons, ConversionResult.isSuccess, ih2]
          · simp [List.filter_cons, hm, hv, ih3]
          · simp [List.filter_cons, hm, hv, ih4]

/-- Entry `k` of the produced list is determined by converting message `k`:
a truthy returned value gives the success entry carrying that value; any
other outcome gives the failure entry carrying the error value and the raw
message text. -/
theorem processMessages_getD (parser : Hl7Parser) (msgs : List String) :
    ∀ (i s f : Nat) (rs : List ConversionResult),
      processMessages parser i msgs = Except.ok (s, f, rs) →
      ∀ k, k < msgs.length →
        ∃ v err, convert_hl7_to_json parser (msgs.getD k "") = Except.ok (v, err) ∧
          rs.getD k defaultResult =
            (if v.truthy then ConversionResult.success (i + k + 1) v
             else ConversionResult.failed (i + k + 1) err (msgs.getD k "")) := by
  induction msgs with
  | nil =>
    intro i s f rs h k hk
    exact absurd hk (by simp)
  | cons m rest ih =>
    intro i s f rs h k hk
    simp only [processMessages] at h
    cases hc : convert_hl7_to_json parser m with
    | error e =>
      simp only [hc] at h
      exact (Except.noConfusion h)
    | ok pr =>
      obtain ⟨v, err⟩ := pr
      simp only [hc] at h
      cases hr : processMessages parser (i + 1) rest with
      | error e =>
        simp only [hr] at h
        exact (Except.noConfusion h)
      | ok tri =>
        obtain ⟨s', f', rs'⟩ := tri
        simp only [hr] at h
        split at h
        · rename_i hv
          simp only [Except.ok.injEq, Prod.mk.injEq] at h
          obtain ⟨rfl, rfl, rfl⟩ := h
          cases k with
          | zero =>
            refine ⟨v, err, by simpa using hc, ?_⟩
            simp [List.getD_cons_zero, hv]
          | succ k =>
            obtain ⟨v', err', h1, h2⟩ := ih (i + 1) s' f' rs' hr k (by simpa using hk)
            refine ⟨v', err', by simpa using h1, ?_⟩
            have harith : i + 1 + k + 1 = i + (k + 1) + 1 := by omega
            rw [harith] at h2
            simpa [List.getD_cons_succ] using h2
        · rename_i hv
          rw [Bool.not_eq_true] at hv
          simp only [Except.ok.injEq, Prod.mk.injEq] at h
          obtain ⟨rfl, rfl, rfl⟩ := h
          cases k with
          | zero =>
            refine ⟨v, err, by simpa using hc, ?_⟩
            simp [List.getD_cons_zero, hv]
          | succ k =>
            obtain ⟨v', err', h1, h2⟩ := ih (i + 1) s' f' rs' hr k (by simpa using hk)
            refine ⟨v', err', by simpa using h1, ?_⟩
            have harith : i + 1 + k + 1 = i + (k + 1) + 1 := by omega
            rw [harith] at h2
            simpa [List.getD_cons_succ] using h2

/-- If converting message `k` propagates an uncaught error while all earlier
messages convert without raising, the whole loop propagates that error. -/
theorem processMessages_error (parser : Hl7Parser) (msgs : List String) :
    ∀ (i k : Nat) (e : PyExc), k < msgs.length →
      convert_hl7_to_json parser (msgs.getD k "") = Except.error e →
      (∀ j, j < k → (convert_hl7_to_json parser (msgs.getD j "")).isOk = true) →
      processMessages parser i msgs = Except.error e := by
  induction msgs with
  | nil =>
    intro i k e hk
    exact absurd hk (by simp)
  | cons m rest ih =>
    intro i k e hk he hprev
    cases k with
    | zero =>
      rw [List.getD_cons_zero] at he
      simp only [processMessages, he]
    | succ k =>
      have h0 := hprev 0 (by omega)
      rw [List.getD_cons_zero] at h0
      cases hc : convert_hl7_to_json parser m with
      | error e' => rw [hc] at h0; simp [Except.isOk, Except.toBool] at h0
      | ok pr =>
        obtain ⟨v, err⟩ := pr
        simp only [processMessages, hc]
        rw [ih (i + 1) k e (by simpa using hk) (by simpa using he)
          fun j hj => by simpa using hprev (j + 1) (by omega)]

/-- C4: Order preservation and completeness — whenever `process_file`
returns a report, the report has exactly one outcome per extracted
candidate, in extraction order, and its `message_index` values are exactly
`1..N` in strictly increasing order (N = number of extracted candidates). -/
theorem c4_order_completeness (parser : Hl7Parser) (content : String)
    (s f : Nat) (rs : List ConversionResult)
    (h : process_file parser content = Except.ok (s, f, rs)) :
    rs.length = (extract_hl7_messages_from_markdown content).length ∧
    rs.map ConversionResult.index =
      List.range' 1 (extract_hl7_messages_from_markdown content).length := by
  obtain ⟨h1, h2⟩ := processMessages_length_index parser
    (extract_hl7_messages_from_markdown content) 0 s f rs h
  exact ⟨h1, by simpa using h2⟩

/-- Witness for C4 at the concrete document `doc3` and `testParser`. -/
theorem c4_order_completeness_witness :
    process_file testParser doc3 =
      Except.ok (1, 2,
        [ConversionResult.success 1 (PyValue.pyDict [("raw", PyValue.pyStr "MSH|1")]),
         ConversionResult.failed 2 (some "Invalid HL7 message") "BAD",
         ConversionResult.failed 3 Option.none "EMPTY"]) ∧
    ([ConversionResult.success 1 (PyValue.pyDict [("raw", PyValue.pyStr "MSH|1")]),
      ConversionResult.failed 2 (some "Invalid HL7 message") "BAD",
      ConversionResult.failed 3 Option.none "EMPTY"].length =
        (extract_hl7_messages_from_markdown doc3).length ∧
     [ConversionResult.success 1 (PyValue.pyDict [("raw", PyValue.pyStr "MSH|1")]),
      ConversionResult.failed 2 (some "Invalid HL7 message") "BAD",
      ConversionResult.failed 3 Option.none "EMPTY"].map ConversionResult.index =
        List.range' 1 (extract_hl7_messages_from_markdown doc3).length) :=
  ⟨rfl, c4_order_completeness testParser doc3 1 2
    [ConversionResult.success 1 (PyValue.pyDict [("raw", PyValue.pyStr "MSH|1")]),
     ConversionResult.failed 2 (some "Invalid HL7 message") "BAD",
     ConversionResult.failed 3 Option.none "EMPTY"] rfl⟩

/-- C5: Count consistency — whenever `process_file` returns, its success
count equals the number of report entries marked success and its failure
count equals the number marked failed. -/
theorem c5_count_consistency (parser : Hl7Parser) (content : String)
    (s f : Nat) (rs : List ConversionResult)
    (h : process_file parser content = Except.ok (s, f, rs)) :
    s = (rs.filter ConversionResult.isSuccess).length ∧
    f = (rs.filter fun r => !r.isSuccess).length := by
  obtain ⟨h1, h2, _, _⟩ := processMessages_counts parser
    (extract_hl7_messages_from_markdown content) 0 s f rs h
  exact ⟨h1, h2⟩

/-- Witness for C5 at the concrete document `doc3` and `testParser`. -/
theorem c5_count_consistency_witness :
    process_file testParser doc3 =
      Except.ok (1, 2,
        [ConversionResult.success 1 (PyValue.pyDict [("raw", PyValue.pyStr "MSH|1")]),
         ConversionResult.failed 2 (some "Invalid HL7 message") "BAD",
         ConversionResult.failed 3 Option.none "EMPTY"]) ∧
    (1 = ([ConversionResult.success 1 (PyValue.pyDict [("raw", PyValue.pyStr "MSH|1")]),
           ConversionResult.failed 2 (some "Invalid HL7 message") "BAD",
           ConversionResult.failed 3 Option.none "EMPTY"].filter
             ConversionResult.isSuccess).length ∧
     2 = ([ConversionResult.success 1 (PyValue.pyDict [("raw", PyValue.pyStr "MSH|1")]),
           ConversionResult.failed 2 (some "Invalid HL7 message") "BAD",
           ConversionResult.failed 3 Option.none "EMPTY"].filter
             fun r => !r.isSuccess).length) :=
  ⟨rfl, c5_count_consistency testParser doc3 1 2
    [ConversionResult.success 1 (PyValue.pyDict [("raw", PyValue.pyStr "MSH|1")]),
     ConversionResult.failed 2 (some "Invalid HL7 message") "BAD",
     ConversionResult.failed 3 Option.none "EMPTY"] rfl⟩

/-- C1 counterexample: in `doc3`, exactly one candidate (`"BAD"`) is
malformed — the parser raises a validation error on it — while the other
two are parsed by `testParser` without any failure signal (`"MSH|1"` to a
non-empty dict, `"EMPTY"` to the structured value `{}`). The claim predicts
1 Failure and 2 Success outcomes, but the code classifies outcomes by the
truthiness of the returned value, so the report has 2 Failures and only 1
Success: the `"EMPTY"` candidate is recorded as a Failure with error
`None`. -/
theorem c1_failure_isolation_cex :
    testParser "EMPTY" = Except.ok (PyValue.pyDict []) ∧
    extract_hl7_messages_from_markdown doc3 = ["MSH|1", "BAD", "EMPTY"] ∧
    process_file testParser doc3 =
      Except.ok (1, 2,
        [ConversionResult.success 1 (PyValue.pyDict [("raw", PyValue.pyStr "MSH|1")]),
         ConversionResult.failed 2 (some "Invalid HL7 message") "BAD",
         ConversionResult.failed 3 Option.none "EMPTY"]) ∧
    (2 : Nat) ≠ 1 :=
  ⟨rfl, rfl, rfl, by decide⟩

/-- C1 (amended): failure isolation — whenever `process_file` returns a
report (no candidate raised an uncatchable error), every extracted
candidate has exactly one outcome; the success count is the number of
candidates whose conversion yields a truthy structured value and the
failure count is the number of all other candidates (signaled parse
failures and falsy parse values alike), the two counts always summing to
the number of candidates. In particular a document with one failing
candidate among N whose conversions all return truthy values yields
exactly 1 Failure and N-1 Success outcomes. -/
theorem c1_failure_isolation (parser : Hl7Parser) (content : String)
    (s f : Nat) (rs : List ConversionResult)
    (h : process_file parser content = Except.ok (s, f, rs)) :
    rs.length = (extract_hl7_messages_from_markdown content).length ∧
    s + f = (extract_hl7_messages_from_markdown content).length ∧
    s = ((extract_hl7_messages_from_markdown content).filter
      (msgSucceeds parser)).length ∧
    f = ((extract_hl7_messages_from_markdown content).filter
      fun m => !msgSucceeds parser m).length := by
  obtain ⟨h1, _⟩ := processMessages_length_index parser
    (extract_hl7_messages_from_markdown content) 0 s f rs h
  obtain ⟨_, _, h3, h4⟩ := processMessages_counts parser
    (extract_hl7_messages_from_markdown content) 0 s f rs h
  refine ⟨h1, ?_, h3, h4⟩
  rw [h3, h4]
  exact length_filter_add_length_filter_not (msgSucceeds parser) _

/-- Witness for C1 (amended) at the concrete document `doc3` and
`testParser`. -/
theorem c1_failure_isolation_witness :
    process_file testParser doc3 =
      Except.ok (1, 2,
        [ConversionResult.success 1 (PyValue.pyDict [("raw", PyValue.pyStr "MSH|1")]),
         ConversionResult.failed 2 (some "Invalid HL7 message") "BAD",
         ConversionResult.failed 3 Option.none "EMPTY"]) ∧
    ([ConversionResult.success 1 (PyValue.pyDict [("raw", PyValue.pyStr "MSH|1")]),
      ConversionResult.failed 2 (some "Invalid HL7 message") "BAD",
      ConversionResult.failed 3 Option.none "EMPTY"].length =
        (extract_hl7_messages_from_markdown doc3).length ∧
     1 + 2 = (extract_hl7_messages_from_markdown doc3).length ∧
     1 = ((extract_hl7_messages_from_markdown doc3).filter
       (msgSucceeds testParser)).length ∧
     2 = ((extract_hl7_messages_from_markdown doc3).filter
       fun m => !msgSucceeds testParser m).length) :=
  ⟨rfl, c1_failure_isolation testParser doc3 1 2
    [ConversionResult.success 1 (PyValue.pyDict [("raw", PyValue.pyStr "MSH|1")]),
     ConversionResult.failed 2 (some "Invalid HL7 message") "BAD",
     ConversionResult.failed 3 Option.none "EMPTY"] rfl⟩

/-- C2 counterexample: on `docOOM` the parser raises `MemoryError` —
resource exhaustion, a condition not attributable to the middle message's
content — yet the pipeline catches it (`except Exception` catches every
`Exception` instance regardless of cause), records it as a per-message
Failure outcome, and continues with the third candidate instead of
halting. -/
theorem c2_fatal_parser_cex :
    testParser "OOM" = Except.error ⟨true, "MemoryError"⟩ ∧
    process_file testParser docOOM =
      Except.ok (2, 1,
        [ConversionResult.success 1 (PyValue.pyDict [("raw", PyValue.pyStr "MSH|1")]),
         ConversionResult.failed 2 (some "MemoryError") "OOM",
         ConversionResult.success 3 (PyValue.pyDict [("raw", PyValue.pyStr "MSH|2")])]) :=
  ⟨rfl, rfl⟩

/-- C2 (amended): only parser errors outside Python's `Exception`
hierarchy (`BaseException`-only signals such as `KeyboardInterrupt` or
`SystemExit`) escape the per-message handler: if converting candidate `k`
propagates such an error and the earlier candidates convert without
raising, `process_file` propagates that error to the caller and produces
no report; every `Exception`, whatever its cause, is instead caught and
recorded as that message's Failure outcome. -/
theorem c2_fatal_parser_propagation (parser : Hl7Parser) (content : String)
    (k : Nat) (e : PyExc)
    (hk : k < (extract_hl7_messages_from_markdown content).length)
    (he : convert_hl7_to_json parser
      ((extract_hl7_messages_from_markdown content).getD k "") = Except.error e)
    (hprev : ∀ j, j < k → (convert_hl7_to_json parser
      ((extract_hl7_messages_from_markdown content).getD j "")).isOk = true) :
    process_file parser content = Except.error e ∧ e.isException = false := by
  constructor
  · exact processMessages_error parser _ 0 k e hk he hprev
  · simp only [convert_hl7_to_json] at he
    cases hp : parser ((extract_hl7_messages_from_markdown content).getD k "") with
    | ok v =>
      simp only [hp] at he
      exact (Except.noConfusion he)
    | error e' =>
      simp only [hp] at he
      cases hb : e'.isException with
      | true => rw [hb] at he; simp at he
      | false =>
        rw [hb] at he
        simp only [Bool.false_eq_true, if_false, Except.error.injEq] at he
        subst he
        exact hb

/-- Witness for C2 (amended) at `docKB`, whose single candidate makes
`testParser` raise a `KeyboardInterrupt`. -/
theorem c2_fatal_parser_propagation_witness :
    (0 < (extract_hl7_messages_from_markdown docKB).length ∧
     convert_hl7_to_json testParser
       ((extract_hl7_messages_from_markdown docKB).getD 0 "") =
       Except.error ⟨false, "KeyboardInterrupt"⟩) ∧
    (process_file testParser docKB =
       Except.error ⟨false, "KeyboardInterrupt"⟩ ∧
     PyExc.isException ⟨false, "KeyboardInterrupt"⟩ = false) :=
  ⟨⟨by decide, rfl⟩,
    c2_fatal_parser_propagation testParser docKB 0 ⟨false, "KeyboardInterrupt"⟩
      (by decide) rfl (fun j hj => absurd hj (Nat.not_lt_zero j))⟩

/-- C3 counterexample: on `docEmptyVal` the parser returns the structured
value `{}` with no failure signaled, yet the pipeline appends a Failure
outcome (with error `None`) and counts the candidate as failed — the
success branch is guarded by the truthiness of the returned value
(`if json_data:`), not by the absence of a signaled error. -/
theorem c3_success_outcome_cex :
    testParser "EMPTY" = Except.ok (PyValue.pyDict []) ∧
    convert_hl7_to_json testParser "EMPTY" =
      Except.ok (PyValue.pyDict [], Option.none) ∧
    process_file testParser docEmptyVal =
      Except.ok (0, 1, [ConversionResult.failed 1 Option.none "EMPTY"]) :=
  ⟨rfl, rfl, rfl⟩

/-- C3 (amended): when the parser returns a structured value for candidate
`k` without signaling failure, the pipeline appends the Success outcome
carrying exactly that value — and classifies the candidate as a success —
if and only if the value is truthy; a falsy returned value (`None`, `{}`,
`[]`, `""`, `0`, `False`) produces the Failure outcome with error `None`
and the candidate counts as failed. -/
theorem c3_success_outcome (parser : Hl7Parser) (content : String)
    (s f : Nat) (rs : List ConversionResult) (k : Nat) (v : PyValue)
    (h : process_file parser content = Except.ok (s, f, rs))
    (hk : k < (extract_hl7_messages_from_markdown content).length)
    (hp : parser ((extract_hl7_messages_from_markdown content).getD k "") =
      Except.ok v) :
    rs.getD k defaultResult =
      (if v.truthy then ConversionResult.success (k + 1) v
       else ConversionResult.failed (k + 1) Option.none
         ((extract_hl7_messages_from_markdown content).getD k "")) ∧
    msgSucceeds parser ((extract_hl7_messages_from_markdown content).getD k "") =
      v.truthy := by
  obtain ⟨v', err', h1, h2⟩ := processMessages_getD parser
    (extract_hl7_messages_from_markdown content) 0 s f rs h k hk
  have hcv : convert_hl7_to_json parser
      ((extract_hl7_messages_from_markdown content).getD k "") =
      Except.ok (v, Option.none) := by
    simp only [convert_hl7_to_json, hp]
  rw [hcv] at h1
  simp only [Except.ok.injEq, Prod.mk.injEq] at h1
  obtain ⟨rfl, rfl⟩ := h1
  constructor
  · simpa using h2
  · simp only [msgSucceeds, hcv]

/-- Witness for C3 (amended) at `doc3`, candidate 0, whose parse returns a
non-empty (truthy) dict. -/
theorem c3_success_outcome_witness :
    (0 < (extract_hl7_messages_from_markdown doc3).length ∧
     testParser ((extract_hl7_messages_from_markdown doc3).getD 0 "") =
       Except.ok (PyValue.pyDict [("raw", PyValue.pyStr "MSH|1")])) ∧
    ([ConversionResult.success 1 (PyValue.pyDict [("raw", PyValue.pyStr "MSH|1")]),
      ConversionResult.failed 2 (some "Invalid HL7 message") "BAD",
      ConversionResult.failed 3 Option.none "EMPTY"].getD 0 defaultResult =
       (if (PyValue.pyDict [("raw", PyValue.pyStr "MSH|1")]).truthy then
          ConversionResult.success 1 (PyValue.pyDict [("raw", PyValue.pyStr "MSH|1")])
        else ConversionResult.failed 1 Option.none
          ((extract_hl7_messages_from_markdown doc3).getD 0 "")) ∧
     msgSucceeds testParser ((extract_hl7_messages_from_markdown doc3).getD 0 "") =
       (PyValue.pyDict [("raw", PyValue.pyStr "MSH|1")]).truthy) :=
  ⟨⟨by decide, rfl⟩,
    c3_success_outcome testParser doc3 1 2
      [ConversionResult.success 1 (PyValue.pyDict [("raw", PyValue.pyStr "MSH|1")]),
       ConversionResult.failed 2 (some "Invalid HL7 message") "BAD",
       ConversionResult.failed 3 Option.none "EMPTY"] 0
      (PyValue.pyDict [("raw", PyValue.pyStr "MSH|1")]) rfl (by decide) rfl⟩

/-- C8: a candidate whose parse fails with a signaled error (the parser
raises an `Exception`) gets a Failure outcome carrying exactly the parser's
error string (`str(e)`) together with the candidate's raw text, verbatim. -/
theorem c8_failure_outcome_contents (parser : Hl7Parser) (content : String)
    (s f : Nat) (rs : List ConversionResult) (k : Nat) (e : PyExc)
    (h : process_file parser content = Except.ok (s, f, rs))
    (hk : k < (extract_hl7_messages_from_markdown content).length)
    (hp : parser ((extract_hl7_messages_from_markdown content).getD k "") =
      Except.error e)
    (hex : e.isException = true) :
    rs.getD k defaultResult =
      ConversionResult.failed (k + 1) (some e.msg)
        ((extract_hl7_messages_from_markdown content).getD k "") := by
  obtain ⟨v', err', h1, h2⟩ := processMessages_getD parser
    (extract_hl7_messages_from_markdown content) 0 s f rs h k hk
  have hcv : convert_hl7_to_json parser
      ((extract_hl7_messages_from_markdown content).getD k "") =
      Except.ok (PyValue.pyNone, some e.msg) := by
    simp only [convert_hl7_to_json, hp, hex, eq_self_iff_true, if_true]
  rw [hcv] at h1
  simp only [Except.ok.injEq, Prod.mk.injEq] at h1
  obtain ⟨rfl, rfl⟩ := h1
  simpa [PyValue.truthy] using h2

/-- Witness for C8 at `doc3`, candidate 1 (`"BAD"`), on which `testParser`
raises the validation error `"Invalid HL7 message"`. -/
theorem c8_failure_outcome_contents_witness :
    (1 < (extract_hl7_messages_from_markdown doc3).length ∧
     testParser ((extract_hl7_messages_from_markdown doc3).getD 1 "") =
       Except.error ⟨true, "Invalid HL7 message"⟩) ∧
    [ConversionResult.success 1 (PyValue.pyDict [("raw", PyValue.pyStr "MSH|1")]),
     ConversionResult.failed 2 (some "Invalid HL7 message") "BAD",
     ConversionResult.failed 3 Option.none "EMPTY"].getD 1 defaultResult =
      ConversionResult.failed 2 (some (PyExc.msg ⟨true, "Invalid HL7 message"⟩))
        ((extract_hl7_messages_from_markdown doc3).getD 1 "") :=
  ⟨⟨by decide, rfl⟩,
    c8_failure_outcome_contents testParser doc3 1 2
      [ConversionResult.success 1 (PyValue.pyDict [("raw", PyValue.pyStr "MSH|1")]),
       ConversionResult.failed 2 (some "Invalid HL7 message") "BAD",
       ConversionResult.failed 3 Option.none "EMPTY"] 1
      ⟨true, "Invalid HL7 message"⟩ rfl (by decide) rfl rfl⟩

/-- C9 counterexample: when the parser raises a `BaseException`-only
interrupt (here `KeyboardInterrupt`), `convert_hl7_to_json` does raise —
`except Exception` does not catch exceptions outside the `Exception`
hierarchy, so the function is not total over all raised exceptions. -/
theorem c9_convert_totality_cex :
    testParser "KBINT" = Except.error ⟨false, "KeyboardInterrupt"⟩ ∧
    convert_hl7_to_json testParser "KBINT" =
      Except.error ⟨false, "KeyboardInterrupt"⟩ :=
  ⟨rfl, rfl⟩

/-- C9 (amended): `convert_hl7_to_json` never raises provided every
exception the parser raises on the input is an `Exception` instance: it
returns either `(value, None)` when the parser returns a structured value,
or `(None, str(e))` when the parser raises the `Exception` `e`; only
`BaseException`-level signals (e.g. `KeyboardInterrupt`, `SystemExit`)
still propagate. -/
theorem c9_convert_totality (parser : Hl7Parser) (m : String)
    (h : raisesOnlyExceptions parser m = true) :
    (∃ v, parser m = Except.ok v ∧
        convert_hl7_to_json parser m = Except.ok (v, Option.none)) ∨
    (∃ e, parser m = Except.error e ∧
        convert_hl7_to_json parser m = Except.ok (PyValue.pyNone, some e.msg)) := by
  cases hp : parser m with
  | ok v => exact Or.inl ⟨v, rfl, by simp only [convert_hl7_to_json, hp]⟩
  | error e =>
    have hex : e.isException = true := by
      simpa [raisesOnlyExceptions, hp] using h
    exact Or.inr ⟨e, rfl, by
      simp only [convert_hl7_to_json, hp, hex, eq_self_iff_true, if_true]⟩

/-- Witness for C9 (amended): `testParser` raises only an `Exception` on
`"BAD"`, and the conversion returns `(None, str(e))`. -/
theorem c9_convert_totality_witness :
    raisesOnlyExceptions testParser "BAD" = true ∧
    ((∃ v, testParser "BAD" = Except.ok v ∧
        convert_hl7_to_json testParser "BAD" = Except.ok (v, Option.none)) ∨
     (∃ e, testParser "BAD" = Except.error e ∧
        convert_hl7_to_json testParser "BAD" =
          Except.ok (PyValue.pyNone, some e.msg))) :=
  ⟨rfl, c9_convert_totality testParser "BAD" rfl⟩

/-- C7: Empty input is not an error — a document containing no fence
marker pair (the empty document included) extracts to the empty candidate
sequence, and `process_file` returns a report with 0 outcomes, success
count 0 and failure count 0, for every parser. -/
theorem c7_empty_input (content : String) (parser : Hl7Parser)
    (h : hasFencePair content.data = false) :
    extract_hl7_messages_from_markdown content = [] ∧
    process_file parser content = Except.ok (0, 0, []) := by
  have hext : extractMessages content.data = [] := extractMessages_nil_of_no_pair h
  have hx : extract_hl7_messages_from_markdown content = [] := by
    simp only [extract_hl7_messages_from_markdown, hext, List.map_nil]
  refine ⟨hx, ?_⟩
  simp only [process_file, hx, processMessages]

/-- Witness for C7 at a plain-text document with no fence markers. -/
theorem c7_empty_input_witness :
    hasFencePair ("Just plain text, no fences.").data = false ∧
    (extract_hl7_messages_from_markdown "Just plain text, no fences." = [] ∧
     process_file testParser "Just plain text, no fences." =
       Except.ok (0, 0, [])) :=
  ⟨rfl, c7_empty_input "Just plain text, no fences." testParser rfl⟩

/-- C6: Non-greedy extraction — a document of the form
open-fence, content A, close-fence, open-fence, content B, close-fence
(contents free of backticks) yields exactly the two candidates `A` and
`B`, not one candidate spanning both: each capture stops at the first
closing marker after its opening marker. -/
theorem c6_non_greedy (A B : String)
    (hA : ∀ c ∈ A.data, c ≠ backtick) (hB : ∀ c ∈ B.data, c ≠ backtick) :
    extract_hl7_messages_from_markdown
      ("```\n" ++ A ++ "\n```" ++ "```\n" ++ B ++ "\n```") = [A, B] := by
  have hdoc : ("```\n" ++ A ++ "\n```" ++ "```\n" ++ B ++ "\n```").data =
      fenceOpen ++ (A.data ++ (fenceClose ++ (fenceOpen ++ (B.data ++ fenceClose)))) := by
    simp only [String.data_append, List.append_assoc]
    rfl
  simp only [extract_hl7_messages_from_markdown, hdoc,
    extractMessages_block A.data (fenceOpen ++ (B.data ++ fenceClose)) hA,
    extractMessages_block_nil B.data hB]
  rfl

/-- Witness for C6 at the concrete backtick-free contents `"MSH|ONE"` and
`"MSH|TWO"`. -/
theorem c6_non_greedy_witness :
    ((∀ c ∈ ("MSH|ONE").data, c ≠ backtick) ∧
     (∀ c ∈ ("MSH|TWO").data, c ≠ backtick)) ∧
    extract_hl7_messages_from_markdown
      ("```\n" ++ "MSH|ONE" ++ "\n```" ++ "```\n" ++ "MSH|TWO" ++ "\n```") =
      ["MSH|ONE", "MSH|TWO"] :=
  ⟨⟨by decide, by decide⟩, c6_non_greedy "MSH|ONE" "MSH|TWO" (by decide) (by decide)⟩

/-- C10: fence markers must be newline-adjacent — every extracted
candidate sits in the document directly between the four characters
"three backticks then newline" and the four characters "newline then three
backticks", so its raw text excludes the marker lines and both bounding
newlines; a fenced block written on one single line, or one with a
language tag after the opening backticks, yields no candidate. -/
theorem c10_newline_adjacent :
    (∀ (content : String) (c : List Char), c ∈ extractMessages content.data →
      ∃ pre post, content.data = pre ++ fenceOpen ++ c ++ fenceClose ++ post) ∧
    extract_hl7_messages_from_markdown "``` MSH|1 ```" = [] ∧
    extract_hl7_messages_from_markdown "```hl7\nMSH|1\n```" = [] :=
  ⟨fun content c hc =>
    extractGo_sound content.data.length content.data (le_refl _) c hc,
   rfl, rfl⟩

/-- Witness for C10: the single candidate of a well-formed document indeed
decomposes the document around newline-adjacent markers. -/
theorem c10_newline_adjacent_witness :
    ("MSH|1").data ∈ extractMessages ("```\nMSH|1\n```").data ∧
    ∃ pre post, ("```\nMSH|1\n```").data =
      pre ++ fenceOpen ++ ("MSH|1").data ++ fenceClose ++ post :=
  ⟨by decide,
    c10_newline_adjacent.1 "```\nMSH|1\n```" ("MSH|1").data (by decide)⟩
